import Mathlib

/-!
# Period-Keyed Submission & Record Store — verification

Shallow embedding of the persistence core of the moxy-board-deck server
(`server/storage.ts`, `server/routes.ts`) and proofs about it.

Modelling conventions:
* A JavaScript `Map<string, V>` is embedded as an association list
  `List (String × V)` whose `set` replaces the binding in place when the key
  is present and appends otherwise (insertion order preserved, as for JS
  `Map`); `Array.from(map.values())` is `map (·.2)`.
* `randomUUID()` and `new Date().toISOString()` are environment inputs: every
  operation that calls them takes the generated id / timestamp as an explicit
  argument.
* `DeckGeneration.createdAt` is compared in the source via
  `new Date(s).getTime()`; it is embedded as the epoch-millisecond value
  (a `Nat`), an order-preserving representation of the ISO timestamp string.
* Passwords reach `Buffer.from(password)` as their UTF-8 byte sequence, so a
  password is embedded as its byte list `List Nat` (each `< 256`); UTF-8
  encoding of JS strings is injective, so nothing is lost.
-/

namespace MoxyStore

/-- Lookup in a JS-`Map`-style association list (first binding wins;
a well-formed map has no duplicate keys). -/
def alistGet {α : Type} : List (String × α) → String → Option α
  | [], _ => none
  | (k', v) :: rest, k => if k' = k then some v else alistGet rest k

/-- `Map.prototype.set`: replace the binding in place when present,
append otherwise. -/
def alistSet {α : Type} : List (String × α) → String → α → List (String × α)
  | [], k, v => [(k, v)]
  | (k', v') :: rest, k, v =>
    if k' = k then (k, v) :: rest else (k', v') :: alistSet rest k v

/-- `Map.prototype.delete`: remove the binding, report whether it existed. -/
def alistDelete {α : Type} : List (String × α) → String → List (String × α) × Bool
  | [], _ => ([], false)
  | (k', v) :: rest, k =>
    if k' = k then (rest, true)
    else
      let r := alistDelete rest k
      ((k', v) :: r.1, r.2)

/-! ## Data model (`shared/schema.ts`) -/

inductive Role where
  | admin
  | operator
deriving DecidableEq, Repr

inductive PeriodType where
  | weekly
  | monthly
deriving DecidableEq, Repr

inductive GenStatus where
  | pending
  | in_progress
  | completed
  | failed
deriving DecidableEq, Repr

structure User where
  id : String
  email : String
  password : String
  name : String
  role : Role
  products : List String
  createdAt : String
deriving DecidableEq, Repr

/-- `InsertUser = userSchema.omit({id, createdAt})`. -/
structure InsertUser where
  email : String
  password : String
  name : String
  role : Role
  products : List String
deriving DecidableEq, Repr

/-- `InsertSubmission = submissionSchema.omit({id, updatedAt})`. -/
structure InsertSubmission where
  productId : String
  fieldName : String
  value : String
  userEmail : String
  periodType : PeriodType
  periodStart : String
deriving DecidableEq, Repr

structure Submission where
  id : String
  productId : String
  fieldName : String
  value : String
  userEmail : String
  periodType : PeriodType
  periodStart : String
  updatedAt : String
deriving DecidableEq, Repr

structure DeckGeneration where
  id : String
  generatedBy : String
  periodType : PeriodType
  periodStart : String
  slidesUrl : Option String
  status : GenStatus
  createdAt : Nat
deriving DecidableEq, Repr

/-- A `DeckGeneration` draft without `id`/`createdAt`
(`Omit<DeckGeneration, "id" | "createdAt">`). -/
structure InsertDeckGeneration where
  generatedBy : String
  periodType : PeriodType
  periodStart : String
  slidesUrl : Option String
  status : GenStatus
deriving DecidableEq, Repr

/-- `Partial<DeckGeneration>`: every field optional; `{...g, ...p}` keeps `g`'s
value for the fields `p` omits. -/
structure GenPatch where
  id : Option String := none
  generatedBy : Option String := none
  periodType : Option PeriodType := none
  periodStart : Option String := none
  slidesUrl : Option (Option String) := none
  status : Option GenStatus := none
  createdAt : Option Nat := none
deriving DecidableEq, Repr

/-- A structured HTTP error: `res.status(code).json({ error })`. -/
structure ErrorResponse where
  status : Nat
  error : String
deriving DecidableEq, Repr

/-! ## User operations (`MemStorage`, `storage.ts`) -/

/-- `String.prototype.toLowerCase`, restricted to the ASCII range
(`Char.toLower` lowers exactly `'A'..'Z'`), which is all the claims quantify
over; spelled on the underlying character list so that it evaluates by kernel
reduction. -/
def jsToLower (s : String) : String := String.mk (s.data.map Char.toLower)

/-- `MemStorage.getUserByEmail`: first user whose lowercased email matches the
lowercased query. -/
def getUserByEmail (users : List (String × User)) (email : String) : Option User :=
  (users.map (·.2)).find? (fun u => jsToLower u.email == jsToLower email)

/-- `MemStorage.createUser`: fresh id and timestamp, stored under the id. -/
def createUser (users : List (String × User)) (d : InsertUser) (freshId now : String) :
    User × List (String × User) :=
  let u : User :=
    { id := freshId, email := d.email, password := d.password, name := d.name,
      role := d.role, products := d.products, createdAt := now }
  (u, alistSet users freshId u)

/-- `MemStorage.deleteUser` = `this.users.delete(id)`. -/
def deleteUser (users : List (String × User)) (id : String) :
    List (String × User) × Bool :=
  alistDelete users id

/-! ## Submission store (`MemStorage`, `storage.ts`) -/

/-- `MemStorage.getSubmissionKey`: the template literal
`${productId}:${fieldName}:${periodStart}`. -/
def getSubmissionKey (productId fieldName periodStart : String) : String :=
  productId ++ ":" ++ fieldName ++ ":" ++ periodStart

/-- `MemStorage.setSubmission`: build a record from the draft with a freshly
generated id and the current timestamp, and `Map.set` it under the derived
key. -/
def setSubmission (store : List (String × Submission)) (d : InsertSubmission)
    (freshId now : String) : Submission × List (String × Submission) :=
  let key := getSubmissionKey d.productId d.fieldName d.periodStart
  let s : Submission :=
    { id := freshId, productId := d.productId, fieldName := d.fieldName,
      value := d.value, userEmail := d.userEmail, periodType := d.periodType,
      periodStart := d.periodStart, updatedAt := now }
  (s, alistSet store key s)

/-- `MemStorage.getSubmission`. -/
def getSubmission (store : List (String × Submission))
    (productId fieldName periodStart : String) : Option Submission :=
  alistGet store (getSubmissionKey productId fieldName periodStart)

/-- A finite sequence of `setSubmission` calls, each with its generated id and
timestamp. -/
def applySubmissionOps (store : List (String × Submission)) :
    List (InsertSubmission × String × String) → List (String × Submission)
  | [] => store
  | (d, fid, now) :: rest => applySubmissionOps (setSubmission store d fid now).2 rest

/-- Store invariant for the submission map: keys are pairwise distinct and each
record sits under the key derived from its own (productId, fieldName,
periodStart) triple. -/
def SubInv (store : List (String × Submission)) : Prop :=
  (store.map (·.1)).Nodup ∧
  ∀ pr ∈ store, pr.1 = getSubmissionKey pr.2.productId pr.2.fieldName pr.2.periodStart

/-! ## Deck generation store (`MemStorage`, `storage.ts`) -/

/-- `MemStorage.createDeckGeneration`. -/
def createDeckGeneration (store : List (String × DeckGeneration))
    (g : InsertDeckGeneration) (freshId : String) (now : Nat) :
    DeckGeneration × List (String × DeckGeneration) :=
  let ng : DeckGeneration :=
    { id := freshId, generatedBy := g.generatedBy, periodType := g.periodType,
      periodStart := g.periodStart, slidesUrl := g.slidesUrl, status := g.status,
      createdAt := now }
  (ng, alistSet store freshId ng)

/-- The JS object spread `{ ...g, ...p }` for a `Partial<DeckGeneration>`. -/
def applyGenPatch (g : DeckGeneration) (p : GenPatch) : DeckGeneration :=
  { id := p.id.getD g.id, generatedBy := p.generatedBy.getD g.generatedBy,
    periodType := p.periodType.getD g.periodType,
    periodStart := p.periodStart.getD g.periodStart,
    slidesUrl := p.slidesUrl.getD g.slidesUrl, status := p.status.getD g.status,
    createdAt := p.createdAt.getD g.createdAt }

/-- `MemStorage.updateDeckGeneration`: merge the patch over the existing record;
`none` (and an unchanged store) when the id is absent. -/
def updateDeckGeneration (store : List (String × DeckGeneration)) (id : String)
    (p : GenPatch) : Option DeckGeneration × List (String × DeckGeneration) :=
  match alistGet store id with
  | none => (none, store)
  | some g =>
    let g' := applyGenPatch g p
    (some g', alistSet store id g')

/-- Insertion step of a stable sort by descending `createdAt`: the element is
placed before the first element whose timestamp is not greater, i.e. after
exactly the strictly-newer elements. Since the sort below inserts each element
into the sorted rest of the list (which it originally preceded), elements with
equal timestamps keep their original relative order, matching the (stable)
JS `Array.prototype.sort` with comparator `(a, b) => timeOf(b) - timeOf(a)`. -/
def insertByCreatedAtDesc (g : DeckGeneration) :
    List DeckGeneration → List DeckGeneration
  | [] => [g]
  | h :: t =>
    if h.createdAt ≤ g.createdAt then g :: h :: t
    else h :: insertByCreatedAtDesc g t

/-- Stable sort by descending `createdAt` (see `insertByCreatedAtDesc`);
`filter_sortByCreatedAtDesc` proves the stability and
`perm_sortByCreatedAtDesc` that it permutes its input. -/
def sortByCreatedAtDesc : List DeckGeneration → List DeckGeneration
  | [] => []
  | g :: rest => insertByCreatedAtDesc g (sortByCreatedAtDesc rest)

/-- `MemStorage.getRecentGenerations(limit)`: values sorted by descending
`createdAt`, truncated to `limit`. -/
def getRecentGenerations (store : List (String × DeckGeneration)) (limit : Nat) :
    List DeckGeneration :=
  (sortByCreatedAtDesc (store.map (·.2))).take limit

/-- The source declares `limit: number = 10`; a call without an argument uses
limit 10. -/
def getRecentGenerationsDefault (store : List (String × DeckGeneration)) :
    List DeckGeneration :=
  getRecentGenerations store 10

/-! ## Password hashing (`routes.ts`) -/

/-- The index-to-character table of standard base64
(`A..Z`, `a..z`, `0..9`, `+`, `/`). -/
def b64char (n : Nat) : Char :=
  if n < 26 then Char.ofNat (65 + n)
  else if n < 52 then Char.ofNat (97 + (n - 26))
  else if n < 62 then Char.ofNat (48 + (n - 52))
  else if n = 62 then '+'
  else '/'

/-- Inverse character table of base64 (0 on characters outside the alphabet). -/
def b64inv (c : Char) : Nat :=
  if 65 ≤ c.toNat ∧ c.toNat ≤ 90 then c.toNat - 65
  else if 97 ≤ c.toNat ∧ c.toNat ≤ 122 then c.toNat - 97 + 26
  else if 48 ≤ c.toNat ∧ c.toNat ≤ 57 then c.toNat - 48 + 52
  else if c = '+' then 62
  else if c = '/' then 63
  else 0

/-- Base64 encoding of a byte sequence
(`Buffer.prototype.toString("base64")`): three bytes per four output
characters, `'='`-padded. -/
def b64encode : List Nat → List Char
  | [] => []
  | [a] => [b64char (a / 4), b64char (a % 4 * 16), '=', '=']
  | [a, b] => [b64char (a / 4), b64char (a % 4 * 16 + b / 16), b64char (b % 16 * 4), '=']
  | a :: b :: c :: rest =>
    b64char (a / 4) :: b64char (a % 4 * 16 + b / 16) ::
      b64char (b % 16 * 4 + c / 64) :: b64char (c % 64) :: b64encode rest

/-- Base64 decoding, used only to establish that `b64encode` is injective. -/
def b64decode : List Char → List Nat
  | c1 :: c2 :: c3 :: c4 :: rest =>
    let v1 := b64inv c1
    let v2 := b64inv c2
    if c3 = '=' then [v1 * 4 + v2 / 16]
    else if c4 = '=' then [v1 * 4 + v2 / 16, v2 % 16 * 16 + b64inv c3 / 4]
    else
      (v1 * 4 + v2 / 16) :: (v2 % 16 * 16 + b64inv c3 / 4) ::
        (b64inv c3 % 4 * 64 + b64inv c4) :: b64decode rest
  | _ => []

/-- `hashPassword` (`routes.ts`):
`Buffer.from(password).toString("base64")`; the password is embedded as its
UTF-8 byte sequence. -/
def hashPassword (password : List Nat) : String :=
  String.mk (b64encode password)

/-- `verifyPassword` (`routes.ts`):
`Buffer.from(password).toString("base64") === hash`. -/
def verifyPassword (password : List Nat) (hash : String) : Bool :=
  hashPassword password == hash

/-! ## Auth routes (`routes.ts`) -/

/-- `POST /api/auth/register` after schema validation: role is forced to
`operator` and products to `[]`; duplicate email (case-insensitive, via
`getUserByEmail`) is rejected with 400 before any user is created; otherwise
the user is stored with the hashed password and the fresh id is returned. -/
def registerHandler (users : List (String × User)) (email : String)
    (password : List Nat) (name : String) (freshId now : String) :
    List (String × User) × Except ErrorResponse String :=
  match getUserByEmail users email with
  | some _ => (users, Except.error ⟨400, "Email already registered"⟩)
  | none =>
    let r := createUser users
      ⟨email, hashPassword password, name, Role.operator, []⟩ freshId now
    (r.2, Except.ok r.1.id)

/-- `POST /api/admin/users` after schema validation (admin-supplied role and
products); same duplicate-email check as registration. -/
def adminCreateUserHandler (users : List (String × User)) (email : String)
    (password : List Nat) (name : String) (role : Role) (products : List String)
    (freshId now : String) : List (String × User) × Except ErrorResponse User :=
  match getUserByEmail users email with
  | some _ => (users, Except.error ⟨400, "Email already registered"⟩)
  | none =>
    let r := createUser users ⟨email, hashPassword password, name, role, products⟩
      freshId now
    (r.2, Except.ok r.1)

/-- `POST /api/auth/login` after schema validation: look the user up by email,
verify the password, and return the user (the handler then binds the session);
both failure branches answer 401 `"Invalid email or password"`. -/
def loginHandler (users : List (String × User)) (email : String)
    (password : List Nat) : Except ErrorResponse User :=
  match getUserByEmail users email with
  | none => Except.error ⟨401, "Invalid email or password"⟩
  | some u =>
    if verifyPassword password u.password then Except.ok u
    else Except.error ⟨401, "Invalid email or password"⟩

/-! ## Access gate and admin routes (`routes.ts`) -/

/-- `requireAdmin` middleware: 401 `"Unauthorized"` when no `userId` is bound
to the session; otherwise resolve the user and answer 403 `"Forbidden"` when
it is missing or its role is not admin; `none` means the gate passes. -/
def requireAdmin (sessionUserId : Option String) (users : List (String × User)) :
    Option ErrorResponse :=
  match sessionUserId with
  | none => some ⟨401, "Unauthorized"⟩
  | some uid =>
    match alistGet users uid with
    | none => some ⟨403, "Forbidden"⟩
    | some u => if u.role = Role.admin then none else some ⟨403, "Forbidden"⟩

/-- An admin-gated route: the guarded handler (a state transformer producing a
response) runs only when `requireAdmin` passes; on gate failure the state is
returned untouched with the gate's error. -/
def runAdminGated {σ α : Type} (sessionUserId : Option String)
    (users : List (String × User)) (st : σ)
    (handler : σ → σ × Except ErrorResponse α) : σ × Except ErrorResponse α :=
  match requireAdmin sessionUserId users with
  | some e => (st, Except.error e)
  | none => handler st

/-- `DELETE /api/admin/users/:id`: behind `requireAdmin`; self-deletion answers
400 before touching the store; otherwise `deleteUser`, 404 when nothing was
deleted. -/
def deleteUserRoute (sessionUserId : Option String) (targetId : String)
    (users : List (String × User)) :
    List (String × User) × Except ErrorResponse String :=
  runAdminGated sessionUserId users users (fun st =>
    if some targetId = sessionUserId then
      (st, Except.error ⟨400, "Cannot delete your own account"⟩)
    else
      let r := deleteUser st targetId
      if r.2 then (r.1, Except.ok "User deleted successfully")
      else (r.1, Except.error ⟨404, "User not found"⟩))

/-- `GET /api/admin/generations`: behind `requireAdmin`; reads
`getRecentGenerations(20)`. -/
def adminGenerationsRoute (sessionUserId : Option String)
    (users : List (String × User)) (gens : List (String × DeckGeneration)) :
    List (String × DeckGeneration) × Except ErrorResponse (List DeckGeneration) :=
  runAdminGated sessionUserId users gens
    (fun st => (st, Except.ok (getRecentGenerations st 20)))

/-! ## The generate-deck flow (`routes.ts`) -/

/-- The draft `POST /api/admin/generate-deck` passes to
`createDeckGeneration`: `slidesUrl: null`, `status: "pending"`. -/
def generateDraft (generatedBy : String) (pt : PeriodType) (ps : String) :
    InsertDeckGeneration :=
  { generatedBy := generatedBy, periodType := pt, periodStart := ps,
    slidesUrl := none, status := GenStatus.pending }

/-- The slides URL the completion callback derives from the generation id:
`https://docs.google.com/presentation/d/${generation.id}`. -/
def slidesUrlFor (id : String) : String :=
  "https://docs.google.com/presentation/d/" ++ id

/-- The partial update the fixed-delay `setTimeout` callback passes to
`updateDeckGeneration`. -/
def completionPatch (id : String) : GenPatch :=
  { status := some GenStatus.completed, slidesUrl := some (some (slidesUrlFor id)) }

/-- The two operations the reference generate-deck flow performs on the
generation store: record creation inside the handler, and the delayed
completion callback. -/
inductive GenOp where
  | generate (generatedBy : String) (pt : PeriodType) (ps : String)
      (freshId : String) (now : Nat)
  | complete (id : String)

def genStep (store : List (String × DeckGeneration)) :
    GenOp → List (String × DeckGeneration)
  | GenOp.generate gb pt ps fid now =>
    (createDeckGeneration store (generateDraft gb pt ps) fid now).2
  | GenOp.complete id => (updateDeckGeneration store id (completionPatch id)).2

def applyGenOps (store : List (String × DeckGeneration)) :
    List GenOp → List (String × DeckGeneration)
  | [] => store
  | op :: rest => applyGenOps (genStep store op) rest

/-- A generation record is in a state the reference flow can produce: freshly
created (`pending`, no URL) or completed with the URL derived from its id. -/
def GoodGen (g : DeckGeneration) : Prop :=
  (g.status = GenStatus.pending ∧ g.slidesUrl = none) ∨
  (g.status = GenStatus.completed ∧ g.slidesUrl = some (slidesUrlFor g.id))

/-- Store invariant for the generation map: every record is keyed by its own id
and is in a flow-reachable state. -/
def GenInv (store : List (String × DeckGeneration)) : Prop :=
  ∀ pr ∈ store, pr.2.id = pr.1 ∧ GoodGen pr.2

/-! ## Financial-record store -/

/-- Modelled from the spec: the financial-record store (`setFinancialRecord`
and the `/api/admin/financials` handler) is not part of the given sources —
only its schema (`financialRecordSchema`) and its client-side caller are.
Metric values are stored and returned verbatim and never computed with, so
their numeric type is opaque; they are embedded as `Int`. -/
structure InsertFinancialRecord where
  periodStart : String
  periodEnd : String
  revenue : Int
  expenses : Int
  operatingIncome : Int
  operatingMargin : Int
  netProfit : Int
  cashBalance : Int
  accountsReceivable : Int
  daysToGetPaid : Int
  updatedBy : String
deriving DecidableEq, Repr

structure FinancialRecord where
  id : String
  periodStart : String
  periodEnd : String
  revenue : Int
  expenses : Int
  operatingIncome : Int
  operatingMargin : Int
  netProfit : Int
  cashBalance : Int
  accountsReceivable : Int
  daysToGetPaid : Int
  updatedAt : String
  updatedBy : String
deriving DecidableEq, Repr

/-- Modelled from the spec: "Identity key = year-month truncation of
`periodStart` (first 7 characters, `YYYY-MM`)". -/
def financialKey (periodStart : String) : String :=
  periodStart.take 7

/-- Modelled from the spec: financial-record upsert — "write to an existing
month record overwrites all fields but preserves id"; a fresh id otherwise,
with the write timestamp in `updatedAt`. -/
def setFinancialRecord (store : List (String × FinancialRecord))
    (d : InsertFinancialRecord) (freshId now : String) :
    FinancialRecord × List (String × FinancialRecord) :=
  let key := financialKey d.periodStart
  let recId :=
    match alistGet store key with
    | some existing => existing.id
    | none => freshId
  let r : FinancialRecord :=
    { id := recId, periodStart := d.periodStart, periodEnd := d.periodEnd,
      revenue := d.revenue, expenses := d.expenses,
      operatingIncome := d.operatingIncome, operatingMargin := d.operatingMargin,
      netProfit := d.netProfit, cashBalance := d.cashBalance,
      accountsReceivable := d.accountsReceivable,
      daysToGetPaid := d.daysToGetPaid, updatedAt := now, updatedBy := d.updatedBy }
  (r, alistSet store key r)

/-! ## Basic association-list lemmas -/

theorem alistGet_alistSet_self {α : Type} (l : List (String × α)) (k : String) (v : α) :
    alistGet (alistSet l k v) k = some v := by
  induction l with
  | nil => simp [alistSet, alistGet]
  | cons hd tl ih =>
    by_cases h : hd.1 = k
    · simp [alistSet, alistGet, h]
    · simp [alistSet, alistGet, h, ih]

theorem alistGet_alistSet_ne {α : Type} (l : List (String × α)) (k k' : String) (v : α)
    (h : k' ≠ k) : alistGet (alistSet l k v) k' = alistGet l k' := by
  have hkk : ¬ k = k' := fun hk => h hk.symm
  induction l with
  | nil => simp [alistSet, alistGet, hkk]
  | cons hd tl ih =>
    by_cases hh : hd.1 = k
    · have hh' : ¬ hd.1 = k' := fun he => h (he.symm.trans hh)
      simp [alistSet, alistGet, hh, hh', hkk]
    · by_cases hh' : hd.1 = k'
      · simp [alistSet, alistGet, hh, hh', h]
      · simp [alistSet, alistGet, hh, hh', ih]

/-- Writing to a key that is already bound does not change the key list:
the update happens in place and no entry is added. -/
theorem alistSet_keys_of_mem {α : Type} (l : List (String × α)) (k : String) (v v' : α)
    (h : alistGet l k = some v') :
    (alistSet l k v).map (·.1) = l.map (·.1) := by
  induction l with
  | nil => simp [alistGet] at h
  | cons hd tl ih =>
    by_cases hh : hd.1 = k
    · simp [alistSet, hh]
    · simp [alistGet, hh] at h
      simp [alistSet, hh, ih h]

/-- Writing to an unbound key appends the new entry at the end. -/
theorem alistSet_of_not_mem {α : Type} (l : List (String × α)) (k : String) (v : α)
    (h : alistGet l k = none) : alistSet l k v = l ++ [(k, v)] := by
  induction l with
  | nil => simp [alistSet]
  | cons hd tl ih =>
    by_cases hh : hd.1 = k
    · simp [alistGet, hh] at h
    · simp [alistGet, hh] at h
      simp [alistSet, hh, ih h]

theorem not_mem_keys_of_alistGet_eq_none {α : Type} (l : List (String × α)) (k : String)
    (h : alistGet l k = none) : k ∉ l.map (·.1) := by
  induction l with
  | nil => simp
  | cons hd tl ih =>
    simp only [alistGet] at h
    by_cases hh : hd.1 = k
    · rw [if_pos hh] at h; exact absurd h (by simp)
    · rw [if_neg hh] at h
      simp only [List.map_cons, List.mem_cons, not_or]
      exact ⟨fun he => hh he.symm, ih h⟩

/-- The key list of `alistSet l k v` is either the key list of `l` (key present)
or that list with `k` appended (key absent); either way, key-nodup is preserved. -/
theorem alistSet_keys_nodup {α : Type} (l : List (String × α)) (k : String) (v : α)
    (h : (l.map (·.1)).Nodup) : ((alistSet l k v).map (·.1)).Nodup := by
  cases hmem : alistGet l k with
  | none =>
    rw [alistSet_of_not_mem l k v hmem]
    simp only [List.map_append, List.map_cons, List.map_nil]
    rw [List.nodup_append]
    refine ⟨h, List.nodup_singleton _, ?_⟩
    intro a ha hb
    simp only [List.mem_cons, List.not_mem_nil, or_false] at hb
    subst hb
    exact not_mem_keys_of_alistGet_eq_none l a hmem ha
  | some w => rw [alistSet_keys_of_mem l k v w hmem]; exact h

theorem alistGet_eq_none_of_not_mem_keys {α : Type} (l : List (String × α)) (k : String)
    (h : k ∉ l.map (·.1)) : alistGet l k = none := by
  induction l with
  | nil => simp [alistGet]
  | cons hd tl ih =>
    simp only [List.map_cons, List.mem_cons, not_or] at h
    have hne : ¬ hd.1 = k := fun he => h.1 he.symm
    simp [alistGet, hne, ih h.2]

theorem alistGet_mem {α : Type} (l : List (String × α)) (k : String) (v : α)
    (h : alistGet l k = some v) : (k, v) ∈ l := by
  induction l with
  | nil => simp [alistGet] at h
  | cons hd tl ih =>
    by_cases hh : hd.1 = k
    · simp only [alistGet, if_pos hh] at h
      have hdv : hd = (k, v) := by
        cases hd with
        | mk a b =>
          simp only at hh
          injection h with h2
          simp only at h2
          rw [hh, h2]
      exact hdv ▸ List.mem_cons_self _ _
    · simp only [alistGet, if_neg hh] at h
      exact List.mem_cons_of_mem _ (ih h)

/-! ## Submission-store lemmas -/

theorem setSubmission_snd (store : List (String × Submission)) (d : InsertSubmission)
    (fid now : String) :
    (setSubmission store d fid now).2 =
      alistSet store (getSubmissionKey d.productId d.fieldName d.periodStart)
        (setSubmission store d fid now).1 := rfl

/-- Membership after a `Map.set`: either the entry just written or one that was
already there. -/
theorem mem_alistSet {α : Type} (l : List (String × α)) (k : String) (v : α)
    (pr : String × α) (h : pr ∈ alistSet l k v) : pr = (k, v) ∨ pr ∈ l := by
  induction l with
  | nil =>
    simp only [alistSet, List.mem_cons, List.not_mem_nil, or_false] at h
    exact Or.inl h
  | cons hd tl ih =>
    by_cases hh : hd.1 = k
    · simp only [alistSet, if_pos hh] at h
      rcases List.mem_cons.mp h with he | hin
      · exact Or.inl he
      · exact Or.inr (List.mem_cons_of_mem _ hin)
    · simp only [alistSet, if_neg hh] at h
      rcases List.mem_cons.mp h with he | hin
      · exact Or.inr (he ▸ List.mem_cons_self _ _)
      · rcases ih hin with h1 | h1
        · exact Or.inl h1
        · exact Or.inr (List.mem_cons_of_mem _ h1)

theorem SubInv_setSubmission (store : List (String × Submission))
    (d : InsertSubmission) (fid now : String) (h : SubInv store) :
    SubInv (setSubmission store d fid now).2 := by
  obtain ⟨hn, hk⟩ := h
  constructor
  · rw [setSubmission_snd]
    exact alistSet_keys_nodup _ _ _ hn
  · intro pr hpr
    rw [setSubmission_snd] at hpr
    rcases mem_alistSet _ _ _ pr hpr with he | hin
    · subst he; rfl
    · exact hk pr hin

theorem SubInv_applySubmissionOps (ops : List (InsertSubmission × String × String)) :
    ∀ store, SubInv store → SubInv (applySubmissionOps store ops) := by
  induction ops with
  | nil => intro store h; exact h
  | cons op rest ih =>
    intro store h
    exact ih _ (SubInv_setSubmission store op.1 op.2.1 op.2.2 h)

theorem SubInv_nil : SubInv [] := ⟨List.nodup_nil, by intro pr hpr; simp at hpr⟩

/-- In a store with distinct, self-describing keys, at most one record carries
any given (productId, fieldName, periodStart) triple. -/
theorem filter_triple_length_le_one (store : List (String × Submission))
    (h : SubInv store) (p f ps : String) :
    (store.filter (fun pr =>
      pr.2.productId == p && pr.2.fieldName == f && pr.2.periodStart == ps)).length ≤ 1 := by
  obtain ⟨hn, hk⟩ := h
  have hsub : (store.filter (fun pr =>
      pr.2.productId == p && pr.2.fieldName == f && pr.2.periodStart == ps)).Sublist store :=
    List.filter_sublist _
  have hnodup : ((store.filter (fun pr =>
      pr.2.productId == p && pr.2.fieldName == f && pr.2.periodStart == ps)).map (·.1)).Nodup :=
    List.Nodup.sublist (List.Sublist.map _ hsub) hn
  have hkey : ∀ pr ∈ store.filter (fun pr =>
      pr.2.productId == p && pr.2.fieldName == f && pr.2.periodStart == ps),
      pr.1 = getSubmissionKey p f ps := by
    intro pr hpr
    have hmem := List.mem_of_mem_filter hpr
    have hcond := List.of_mem_filter hpr
    simp only [Bool.and_eq_true, beq_iff_eq] at hcond
    rw [hk pr hmem, hcond.1.1, hcond.1.2, hcond.2]
  cases hfl : store.filter (fun pr =>
      pr.2.productId == p && pr.2.fieldName == f && pr.2.periodStart == ps) with
  | nil => simp
  | cons x t =>
    cases t with
    | nil => simp
    | cons y t' =>
      exfalso
      rw [hfl] at hnodup hkey
      have hx := hkey x (List.mem_cons_self _ _)
      have hy := hkey y (List.mem_cons_of_mem _ (List.mem_cons_self _ _))
      simp only [List.map_cons, List.nodup_cons, List.mem_cons, List.mem_map] at hnodup
      exact hnodup.1 (Or.inl (hx.trans hy.symm))

/-! ## Claim theorems: submission store -/

/-- C1 (counterexample): the claim says an upsert to an existing
(productId, fieldName, periodStart) key keeps the original record's id; in the
code `setSubmission` stores a freshly generated `randomUUID()` on every write,
so after writing the same key with generated ids "id1" then "id2" the stored
record carries "id2", not the original "id1". -/
theorem C1_counterexample :
    (getSubmission (setSubmission (setSubmission []
        ⟨"sams", "kr1_tof_actual", "100", "a@x.com", PeriodType.weekly, "2025-01-06"⟩
        "id1" "t1").2
        ⟨"sams", "kr1_tof_actual", "200", "b@x.com", PeriodType.weekly, "2025-01-06"⟩
        "id2" "t2").2
      "sams" "kr1_tof_actual" "2025-01-06").map Submission.id ≠ some "id1" ∧
    (getSubmission (setSubmission (setSubmission []
        ⟨"sams", "kr1_tof_actual", "100", "a@x.com", PeriodType.weekly, "2025-01-06"⟩
        "id1" "t1").2
        ⟨"sams", "kr1_tof_actual", "200", "b@x.com", PeriodType.weekly, "2025-01-06"⟩
        "id2" "t2").2
      "sams" "kr1_tof_actual" "2025-01-06").map Submission.id = some "id2" := by
  constructor
  · decide
  · decide

/-- C1 (amended): for every draft whose (productId, fieldName, periodStart)
triple matches a record already in the store, `setSubmission` updates that
record in place — the store's key list is unchanged (no duplicate record) and
the stored record's value, userEmail and updatedAt come from the latest write —
but the record's id is the freshly generated id of the latest write, not the
original record's id. -/
theorem C1_upsert_in_place_fresh_id (store : List (String × Submission))
    (d : InsertSubmission) (fid now : String) (old : Submission)
    (h : getSubmission store d.productId d.fieldName d.periodStart = some old) :
    getSubmission (setSubmission store d fid now).2
        d.productId d.fieldName d.periodStart = some (setSubmission store d fid now).1
    ∧ (setSubmission store d fid now).1.value = d.value
    ∧ (setSubmission store d fid now).1.userEmail = d.userEmail
    ∧ (setSubmission store d fid now).1.updatedAt = now
    ∧ (setSubmission store d fid now).1.id = fid
    ∧ (setSubmission store d fid now).2.map (·.1) = store.map (·.1) := by
  simp only [getSubmission] at h ⊢
  rw [setSubmission_snd]
  exact ⟨alistGet_alistSet_self _ _ _, rfl, rfl, rfl, rfl,
    alistSet_keys_of_mem _ _ _ old h⟩

theorem C1_witness :
    (setSubmission [(getSubmissionKey "sams" "kr1_tof_actual" "2025-01-06",
        ⟨"id1", "sams", "kr1_tof_actual", "100", "a@x.com", PeriodType.weekly,
          "2025-01-06", "t1"⟩)]
      ⟨"sams", "kr1_tof_actual", "200", "b@x.com", PeriodType.weekly, "2025-01-06"⟩
      "id2" "t2").1.id = "id2" :=
  (C1_upsert_in_place_fresh_id
    [(getSubmissionKey "sams" "kr1_tof_actual" "2025-01-06",
        ⟨"id1", "sams", "kr1_tof_actual", "100", "a@x.com", PeriodType.weekly,
          "2025-01-06", "t1"⟩)]
    ⟨"sams", "kr1_tof_actual", "200", "b@x.com", PeriodType.weekly, "2025-01-06"⟩
    "id2" "t2"
    ⟨"id1", "sams", "kr1_tof_actual", "100", "a@x.com", PeriodType.weekly,
      "2025-01-06", "t1"⟩
    (by decide)).2.2.2.2.1

/-- C3: after any finite sequence of `setSubmission` calls starting from the
empty store, at most one record carries any given (productId, fieldName,
periodStart) triple; and since `getSubmissionKey` ignores `periodType`, two
writes agreeing on the triple but differing in `periodType` hit the same key:
the second write replaces the first record in place (same key list) and the
stored record is exactly the second write's. -/
theorem C3_at_most_one_per_key
    (ops : List (InsertSubmission × String × String)) (p f ps : String)
    (st : List (String × Submission)) (d1 d2 : InsertSubmission)
    (id1 t1 id2 t2 : String)
    (hp : d2.productId = d1.productId) (hf : d2.fieldName = d1.fieldName)
    (hs : d2.periodStart = d1.periodStart) :
    ((applySubmissionOps [] ops).filter (fun pr =>
        pr.2.productId == p && pr.2.fieldName == f && pr.2.periodStart == ps)).length ≤ 1
    ∧ getSubmission (setSubmission (setSubmission st d1 id1 t1).2 d2 id2 t2).2
        d1.productId d1.fieldName d1.periodStart
      = some (setSubmission (setSubmission st d1 id1 t1).2 d2 id2 t2).1
    ∧ (setSubmission (setSubmission st d1 id1 t1).2 d2 id2 t2).2.map (·.1)
      = (setSubmission st d1 id1 t1).2.map (·.1) := by
  refine ⟨filter_triple_length_le_one _
    (SubInv_applySubmissionOps ops [] SubInv_nil) p f ps, ?_, ?_⟩
  · simp only [getSubmission]
    rw [setSubmission_snd _ d2, hp, hf, hs]
    exact alistGet_alistSet_self _ _ _
  · rw [setSubmission_snd _ d2, hp, hf, hs]
    refine alistSet_keys_of_mem _ _ _ (setSubmission st d1 id1 t1).1 ?_
    rw [setSubmission_snd _ d1]
    exact alistGet_alistSet_self _ _ _

theorem C3_witness :
    ((applySubmissionOps []
        [(⟨"p", "f", "1", "a@x.com", PeriodType.weekly, "2025-01-06"⟩, "id1", "t1")]).filter
      (fun pr => pr.2.productId == "p" && pr.2.fieldName == "f" &&
        pr.2.periodStart == "2025-01-06")).length ≤ 1 :=
  (C3_at_most_one_per_key
    [(⟨"p", "f", "1", "a@x.com", PeriodType.weekly, "2025-01-06"⟩, "id1", "t1")]
    "p" "f" "2025-01-06" []
    ⟨"p", "f", "1", "a@x.com", PeriodType.weekly, "2025-01-06"⟩
    ⟨"p", "f", "2", "b@x.com", PeriodType.monthly, "2025-01-06"⟩
    "id1" "t1" "id2" "t2" rfl rfl rfl).1

/-! ## Submission-key injectivity (claim C4) -/

/-- Splitting at the first occurrence of a separator absent from both prefix
parts: the decomposition is unique. -/
theorem colon_split (sep : Char) (b d : List Char) :
    ∀ (a c : List Char), sep ∉ a → sep ∉ c →
      a ++ sep :: b = c ++ sep :: d → a = c ∧ b = d := by
  intro a
  induction a with
  | nil =>
    intro c ha hc h
    cases c with
    | nil => simpa using h
    | cons ch ct =>
      simp only [List.nil_append, List.cons_append, List.cons.injEq] at h
      have hmem : sep ∈ ch :: ct := by rw [← h.1]; exact List.mem_cons_self _ _
      exact absurd hmem hc
  | cons ah at' ih =>
    intro c ha hc h
    cases c with
    | nil =>
      simp only [List.cons_append, List.nil_append, List.cons.injEq] at h
      have hmem : sep ∈ ah :: at' := by rw [← h.1]; exact List.mem_cons_self _ _
      exact absurd hmem ha
    | cons ch ct =>
      simp only [List.cons_append, List.cons.injEq] at h
      have hat : sep ∉ at' := fun hmem => ha (List.mem_cons_of_mem _ hmem)
      have hct : sep ∉ ct := fun hmem => hc (List.mem_cons_of_mem _ hmem)
      obtain ⟨hac, hbd⟩ := ih ct hat hct h.2
      exact ⟨by rw [h.1, hac], hbd⟩

/-- C4 (counterexample): the separator is `':'`, which *can* occur in the
components, so the key derivation is not injective over arbitrary strings:
("a:b", "c", "d") and ("a", "b:c", "d") are distinct triples with the same
key "a:b:c:d". -/
theorem C4_counterexample :
    getSubmissionKey "a:b" "c" "d" = getSubmissionKey "a" "b:c" "d" ∧
    (("a:b", "c", "d") : String × String × String) ≠ ("a", "b:c", "d") := by
  constructor
  · rfl
  · decide

/-- C4 (amended): the key derivation is injective on triples whose components
do not contain the separator `':'` (which the code does not enforce: product
ids, field names and ISO dates as actually used never contain `':'`, but
arbitrary strings may). -/
theorem C4_key_injective_without_separator
    (p1 f1 s1 p2 f2 s2 : String)
    (hp1 : ':' ∉ p1.data) (hf1 : ':' ∉ f1.data)
    (hp2 : ':' ∉ p2.data) (hf2 : ':' ∉ f2.data)
    (h : getSubmissionKey p1 f1 s1 = getSubmissionKey p2 f2 s2) :
    p1 = p2 ∧ f1 = f2 ∧ s1 = s2 := by
  have hd := congrArg String.data h
  simp only [getSubmissionKey, String.data_append, List.append_assoc,
    List.singleton_append] at hd
  obtain ⟨hp, hrest⟩ := colon_split ':' (f1.data ++ ':' :: s1.data)
    (f2.data ++ ':' :: s2.data) p1.data p2.data hp1 hp2 hd
  obtain ⟨hf, hs⟩ := colon_split ':' s1.data s2.data f1.data f2.data hf1 hf2 hrest
  exact ⟨String.ext hp, String.ext hf, String.ext hs⟩

theorem C4_witness :
    ("sams" : String) = "sams" ∧ ("kr1" : String) = "kr1" ∧
      ("2025-01-06" : String) = "2025-01-06" :=
  C4_key_injective_without_separator "sams" "kr1" "2025-01-06" "sams" "kr1" "2025-01-06"
    (by decide) (by decide) (by decide) (by decide) rfl

/-! ## Financial-record month bucketing (claim C2) -/

theorem setFinancialRecord_snd (store : List (String × FinancialRecord))
    (d : InsertFinancialRecord) (fid now : String) :
    (setFinancialRecord store d fid now).2 =
      alistSet store (financialKey d.periodStart) (setFinancialRecord store d fid now).1 := rfl

theorem setFinancialRecord_id_of_existing (store : List (String × FinancialRecord))
    (d : InsertFinancialRecord) (fid now : String) (ex : FinancialRecord)
    (h : alistGet store (financialKey d.periodStart) = some ex) :
    (setFinancialRecord store d fid now).1.id = ex.id := by
  simp only [setFinancialRecord, h]

/-- C2: for the financial-record store, two upserts whose `periodStart` values
share their first seven characters ("YYYY-MM") collapse into the single record
stored under that month key: the second write keeps the id the first write
produced, the store's key list does not grow, and periodEnd, all eight numeric
metrics and updatedAt come from the second write alone. -/
theorem C2_financial_month_collapse (store : List (String × FinancialRecord))
    (d1 d2 : InsertFinancialRecord) (id1 t1 id2 t2 : String)
    (h : d1.periodStart.take 7 = d2.periodStart.take 7) :
    (setFinancialRecord (setFinancialRecord store d1 id1 t1).2 d2 id2 t2).1.id
      = (setFinancialRecord store d1 id1 t1).1.id
    ∧ alistGet (setFinancialRecord (setFinancialRecord store d1 id1 t1).2 d2 id2 t2).2
        (financialKey d2.periodStart)
      = some (setFinancialRecord (setFinancialRecord store d1 id1 t1).2 d2 id2 t2).1
    ∧ (setFinancialRecord (setFinancialRecord store d1 id1 t1).2 d2 id2 t2).1.periodEnd
      = d2.periodEnd
    ∧ (setFinancialRecord (setFinancialRecord store d1 id1 t1).2 d2 id2 t2).1.revenue
      = d2.revenue
    ∧ (setFinancialRecord (setFinancialRecord store d1 id1 t1).2 d2 id2 t2).1.expenses
      = d2.expenses
    ∧ (setFinancialRecord (setFinancialRecord store d1 id1 t1).2 d2 id2 t2).1.operatingIncome
      = d2.operatingIncome
    ∧ (setFinancialRecord (setFinancialRecord store d1 id1 t1).2 d2 id2 t2).1.operatingMargin
      = d2.operatingMargin
    ∧ (setFinancialRecord (setFinancialRecord store d1 id1 t1).2 d2 id2 t2).1.netProfit
      = d2.netProfit
    ∧ (setFinancialRecord (setFinancialRecord store d1 id1 t1).2 d2 id2 t2).1.cashBalance
      = d2.cashBalance
    ∧ (setFinancialRecord (setFinancialRecord store d1 id1 t1).2 d2 id2 t2).1.accountsReceivable
      = d2.accountsReceivable
    ∧ (setFinancialRecord (setFinancialRecord store d1 id1 t1).2 d2 id2 t2).1.daysToGetPaid
      = d2.daysToGetPaid
    ∧ (setFinancialRecord (setFinancialRecord store d1 id1 t1).2 d2 id2 t2).1.updatedAt
      = t2
    ∧ (setFinancialRecord (setFinancialRecord store d1 id1 t1).2 d2 id2 t2).2.map (·.1)
      = (setFinancialRecord store d1 id1 t1).2.map (·.1) := by
  have hk : financialKey d2.periodStart = financialKey d1.periodStart := by
    simp only [financialKey]
    rw [h]
  have hget : alistGet (setFinancialRecord store d1 id1 t1).2
      (financialKey d2.periodStart) = some (setFinancialRecord store d1 id1 t1).1 := by
    rw [setFinancialRecord_snd, hk]
    exact alistGet_alistSet_self _ _ _
  refine ⟨setFinancialRecord_id_of_existing _ d2 id2 t2 _ hget, ?_,
    rfl, rfl, rfl, rfl, rfl, rfl, rfl, rfl, rfl, rfl, ?_⟩
  · rw [setFinancialRecord_snd (setFinancialRecord store d1 id1 t1).2 d2 id2 t2]
    exact alistGet_alistSet_self _ _ _
  · rw [setFinancialRecord_snd (setFinancialRecord store d1 id1 t1).2 d2 id2 t2]
    exact alistSet_keys_of_mem _ _ _ _ hget

theorem C2_witness :
    (setFinancialRecord (setFinancialRecord []
        ⟨"2025-01-01", "2025-01-31", 1, 2, 3, 4, 5, 6, 7, 8, "a@x.com"⟩ "fid1" "t1").2
        ⟨"2025-01-15", "2025-01-31", 10, 20, 30, 40, 50, 60, 70, 80, "b@x.com"⟩
        "fid2" "t2").1.id
      = (setFinancialRecord []
          ⟨"2025-01-01", "2025-01-31", 1, 2, 3, 4, 5, 6, 7, 8, "a@x.com"⟩ "fid1" "t1").1.id :=
  (C2_financial_month_collapse []
    ⟨"2025-01-01", "2025-01-31", 1, 2, 3, 4, 5, 6, 7, 8, "a@x.com"⟩
    ⟨"2025-01-15", "2025-01-31", 10, 20, 30, 40, 50, 60, 70, 80, "b@x.com"⟩
    "fid1" "t1" "fid2" "t2" (by decide)).1

/-! ## Email lookup and uniqueness (claim C5) -/

/-- The value just written by `Map.set` is among the map's values. -/
theorem alistSet_value_mem {α : Type} (l : List (String × α)) (k : String) (v : α) :
    v ∈ (alistSet l k v).map (·.2) := by
  induction l with
  | nil => simp [alistSet]
  | cons hd tl ih =>
    by_cases hh : hd.1 = k
    · simp [alistSet, hh]
    · simp only [alistSet, if_neg hh, List.map_cons, List.mem_cons]
      exact Or.inr ih

theorem registerHandler_success (users : List (String × User)) (email : String)
    (pw : List Nat) (nm fid now : String)
    (h : getUserByEmail users email = none) :
    registerHandler users email pw nm fid now =
      (alistSet users fid
        ⟨fid, email, hashPassword pw, nm, Role.operator, [], now⟩, Except.ok fid) := by
  simp only [registerHandler, h, createUser]

theorem getUserByEmail_some_of_mem (users : List (String × User)) (u : User)
    (q : String) (hu : u ∈ users.map (·.2))
    (hq : jsToLower u.email = jsToLower q) :
    ∃ w, getUserByEmail users q = some w := by
  unfold getUserByEmail
  induction users with
  | nil => simp at hu
  | cons hd tl ih =>
    simp only [List.map_cons, List.mem_cons] at hu
    simp only [List.map_cons, List.find?_cons]
    rcases hu with he | hin
    · rw [← he, hq]
      simp
    · cases hcond : (jsToLower hd.2.email == jsToLower q) with
      | true => exact ⟨hd.2, rfl⟩
      | false => exact ih hin

/-- First-match lookup in a list of users with pairwise-distinct normalized
emails finds exactly the member that matches. -/
theorem find_unique_email (l : List User) (u : User) (q : String)
    (hp : l.Pairwise (fun a b => jsToLower a.email ≠ jsToLower b.email))
    (hm : u ∈ l) (hq : jsToLower q = jsToLower u.email) :
    l.find? (fun v => jsToLower v.email == jsToLower q) = some u := by
  induction l with
  | nil => simp at hm
  | cons hd tl ih =>
    rcases List.mem_cons.mp hm with he | hin
    · subst he
      simp [List.find?_cons, hq]
    · have hne : jsToLower hd.email ≠ jsToLower u.email :=
        (List.pairwise_cons.mp hp).1 u hin
      have hcond : (jsToLower hd.email == jsToLower q) = false := by
        rw [hq]
        exact beq_eq_false_iff_ne.mpr hne
      rw [List.find?_cons, hcond]
      exact ih (List.pairwise_cons.mp hp).2 hin

/-- C5: after a registration with email X succeeds, any later register or
admin-create request whose email equals X up to ASCII case is rejected with
400 "Email already registered" and leaves the user store untouched; and
`getUserByEmail` is case-insensitive: in a store whose normalized emails are
pairwise distinct, any query equal to a stored user's email up to ASCII case
returns exactly that user. -/
theorem C5_email_uniqueness (users : List (String × User)) (email : String)
    (pw : List Nat) (nm fid now : String) (email2 : String) (pw2 : List Nat)
    (nm2 fid2 now2 : String) (role2 : Role) (prods2 : List String)
    (u : User) (q : String)
    (hsucc : getUserByEmail users email = none)
    (hcase : jsToLower email2 = jsToLower email) :
    registerHandler (registerHandler users email pw nm fid now).1 email2 pw2 nm2 fid2 now2
      = ((registerHandler users email pw nm fid now).1,
         Except.error ⟨400, "Email already registered"⟩)
    ∧ adminCreateUserHandler (registerHandler users email pw nm fid now).1
        email2 pw2 nm2 role2 prods2 fid2 now2
      = ((registerHandler users email pw nm fid now).1,
         Except.error ⟨400, "Email already registered"⟩)
    ∧ ((users.map (·.2)).Pairwise (fun a b => jsToLower a.email ≠ jsToLower b.email) →
        u ∈ users.map (·.2) → jsToLower q = jsToLower u.email →
        getUserByEmail users q = some u) := by
  rw [registerHandler_success users email pw nm fid now hsucc]
  have hmem : (⟨fid, email, hashPassword pw, nm, Role.operator, [], now⟩ : User) ∈
      (alistSet users fid
        ⟨fid, email, hashPassword pw, nm, Role.operator, [], now⟩).map (·.2) :=
    alistSet_value_mem users fid _
  obtain ⟨w, hw⟩ := getUserByEmail_some_of_mem _
    ⟨fid, email, hashPassword pw, nm, Role.operator, [], now⟩ email2 hmem hcase.symm
  refine ⟨?_, ?_, ?_⟩
  · simp only [registerHandler, hw]
  · simp only [adminCreateUserHandler, hw]
  · intro hp hmem2 hq
    exact find_unique_email _ u q hp hmem2 hq

theorem C5_witness :
    getUserByEmail
      [("a1", ⟨"a1", "Admin@MoxyWolf.com", "h", "Admin", Role.admin, [], "t0"⟩)]
      "admin@moxywolf.com"
      = some ⟨"a1", "Admin@MoxyWolf.com", "h", "Admin", Role.admin, [], "t0"⟩ :=
  (C5_email_uniqueness
    [("a1", ⟨"a1", "Admin@MoxyWolf.com", "h", "Admin", Role.admin, [], "t0"⟩)]
    "ops@x.com" [97] "Op" "u2" "t1" "OPS@X.COM" [98] "Op2" "u3" "t2"
    Role.operator []
    ⟨"a1", "Admin@MoxyWolf.com", "h", "Admin", Role.admin, [], "t0"⟩
    "admin@moxywolf.com"
    (by decide) (by decide)).2.2
    (by decide) (by decide) (by decide)

/-! ## Access gate (claim C6) -/

/-- C6: an admin-gated route rejects with 401 "Unauthorized" when no user id is
bound to the session, and with 403 "Forbidden" when the bound identity resolves
to a non-admin user; in both cases the state is returned untouched and the
guarded handler never runs (the equations hold for every handler). -/
theorem C6_admin_gate {σ α : Type} (users : List (String × User)) (st : σ)
    (handler : σ → σ × Except ErrorResponse α) (uid : String) (u : User)
    (hu : alistGet users uid = some u) (hrole : u.role ≠ Role.admin) :
    runAdminGated none users st handler = (st, Except.error ⟨401, "Unauthorized"⟩)
    ∧ runAdminGated (some uid) users st handler
      = (st, Except.error ⟨403, "Forbidden"⟩) := by
  constructor
  · rfl
  · simp only [runAdminGated, requireAdmin, hu, if_neg hrole]

theorem C6_witness :
    runAdminGated (some "u1")
      [("u1", ⟨"u1", "op@x.com", "h", "Op", Role.operator, [], "t0"⟩)]
      (0 : Nat) (fun s => (s + 1, Except.ok (5 : Nat)))
      = (0, Except.error ⟨403, "Forbidden"⟩) :=
  (C6_admin_gate
    [("u1", ⟨"u1", "op@x.com", "h", "Op", Role.operator, [], "t0"⟩)]
    0 (fun s => (s + 1, Except.ok 5)) "u1"
    ⟨"u1", "op@x.com", "h", "Op", Role.operator, [], "t0"⟩
    (by decide) (by decide)).2

/-! ## User deletion (claim C7) -/

theorem alistDelete_of_get_none {α : Type} (l : List (String × α)) (k : String)
    (h : alistGet l k = none) : alistDelete l k = (l, false) := by
  induction l with
  | nil => rfl
  | cons hd tl ih =>
    simp only [alistGet] at h
    by_cases hh : hd.1 = k
    · rw [if_pos hh] at h; exact absurd h (by simp)
    · rw [if_neg hh] at h
      simp [alistDelete, hh, ih h]

theorem alistDelete_found {α : Type} (l : List (String × α)) (k : String) (v : α)
    (h : alistGet l k = some v) : (alistDelete l k).2 = true := by
  induction l with
  | nil => simp [alistGet] at h
  | cons hd tl ih =>
    simp only [alistGet] at h
    by_cases hh : hd.1 = k
    · simp [alistDelete, hh]
    · rw [if_neg hh] at h
      simp [alistDelete, hh, ih h]

theorem alistGet_alistDelete_self {α : Type} (l : List (String × α)) (k : String)
    (hn : (l.map (·.1)).Nodup) : alistGet (alistDelete l k).1 k = none := by
  induction l with
  | nil => simp [alistDelete, alistGet]
  | cons hd tl ih =>
    simp only [List.map_cons, List.nodup_cons] at hn
    by_cases hh : hd.1 = k
    · simp only [alistDelete, if_pos hh]
      exact alistGet_eq_none_of_not_mem_keys tl k (hh ▸ hn.1)
    · simp only [alistDelete, if_neg hh, alistGet]
      exact ih hn.2

theorem alistGet_alistDelete_ne {α : Type} (l : List (String × α)) (k k' : String)
    (h : k' ≠ k) : alistGet (alistDelete l k).1 k' = alistGet l k' := by
  have hkk : ¬ k = k' := fun he => h he.symm
  induction l with
  | nil => rfl
  | cons hd tl ih =>
    by_cases hh : hd.1 = k
    · have hh' : ¬ hd.1 = k' := fun he => h (he.symm.trans hh)
      simp [alistDelete, alistGet, hh, hh', hkk]
    · by_cases hh' : hd.1 = k'
      · simp [alistDelete, alistGet, hh, hh', h]
      · simp [alistDelete, alistGet, hh, hh', ih]

/-- C7: behind an authenticated admin session, deleting your own id is always
rejected with 400 "Cannot delete your own account" and the user store is
unchanged — with no condition on the rest of the store, so in particular also
when the requester is the only remaining admin; deleting any other existing
user succeeds and removes exactly that user; deleting an absent id answers
404 "User not found" with the store unchanged. -/
theorem C7_self_deletion_rejected (users : List (String × User)) (uid : String)
    (u : User) (target : String) (v : User)
    (hu : alistGet users uid = some u) (hadmin : u.role = Role.admin)
    (hnodup : (users.map (·.1)).Nodup) :
    deleteUserRoute (some uid) uid users
      = (users, Except.error ⟨400, "Cannot delete your own account"⟩)
    ∧ (target ≠ uid → alistGet users target = some v →
        (deleteUserRoute (some uid) target users).2 = Except.ok "User deleted successfully"
        ∧ alistGet (deleteUserRoute (some uid) target users).1 target = none
        ∧ ∀ k, k ≠ target →
            alistGet (deleteUserRoute (some uid) target users).1 k = alistGet users k)
    ∧ (target ≠ uid → alistGet users target = none →
        deleteUserRoute (some uid) target users
          = (users, Except.error ⟨404, "User not found"⟩)) := by
  have hgate : requireAdmin (some uid) users = none := by
    simp [requireAdmin, hu, hadmin]
  refine ⟨?_, ?_, ?_⟩
  · simp [deleteUserRoute, runAdminGated, hgate]
  · intro hne hv
    have hnes : ¬ (some target = some uid) := by
      intro he; exact hne (Option.some.injEq _ _ ▸ he : target = uid)
    simp only [deleteUserRoute, runAdminGated, hgate, if_neg hnes, deleteUser]
    rw [alistDelete_found users target v hv]
    refine ⟨rfl, ?_, ?_⟩
    · simpa using alistGet_alistDelete_self users target hnodup
    · intro k hk
      simpa using alistGet_alistDelete_ne users target k hk
  · intro hne hv
    have hnes : ¬ (some target = some uid) := by
      intro he; exact hne (Option.some.injEq _ _ ▸ he : target = uid)
    simp only [deleteUserRoute, runAdminGated, hgate, if_neg hnes, deleteUser]
    rw [alistDelete_of_get_none users target hv]
    simp

theorem C7_witness :
    deleteUserRoute (some "a1") "a1"
      [("a1", ⟨"a1", "admin@x.com", "h", "Admin", Role.admin, [], "t0"⟩)]
      = ([("a1", ⟨"a1", "admin@x.com", "h", "Admin", Role.admin, [], "t0"⟩)],
         Except.error ⟨400, "Cannot delete your own account"⟩) :=
  (C7_self_deletion_rejected
    [("a1", ⟨"a1", "admin@x.com", "h", "Admin", Role.admin, [], "t0"⟩)]
    "a1" ⟨"a1", "admin@x.com", "h", "Admin", Role.admin, [], "t0"⟩
    "zz" ⟨"zz", "z@x.com", "h", "Z", Role.operator, [], "t0"⟩
    (by decide) rfl (by decide)).1

/-! ## Recent generations listing (claim C8) -/

theorem mem_insertByCreatedAtDesc (g x : DeckGeneration) (l : List DeckGeneration)
    (h : x ∈ insertByCreatedAtDesc g l) : x = g ∨ x ∈ l := by
  induction l with
  | nil =>
    simp only [insertByCreatedAtDesc, List.mem_cons, List.not_mem_nil, or_false] at h
    exact Or.inl h
  | cons hd tl ih =>
    by_cases hle : hd.createdAt ≤ g.createdAt
    · simp only [insertByCreatedAtDesc, if_pos hle] at h
      rcases List.mem_cons.mp h with he | hin
      · exact Or.inl he
      · exact Or.inr hin
    · simp only [insertByCreatedAtDesc, if_neg hle] at h
      rcases List.mem_cons.mp h with he | hin
      · exact Or.inr (he ▸ List.mem_cons_self _ _)
      · rcases ih hin with h1 | h1
        · exact Or.inl h1
        · exact Or.inr (List.mem_cons_of_mem _ h1)

theorem sorted_insertByCreatedAtDesc (g : DeckGeneration) (l : List DeckGeneration)
    (h : List.Pairwise (fun a b => b.createdAt ≤ a.createdAt) l) :
    List.Pairwise (fun a b => b.createdAt ≤ a.createdAt) (insertByCreatedAtDesc g l) := by
  induction l with
  | nil => simp [insertByCreatedAtDesc]
  | cons hd tl ih =>
    obtain ⟨hhd, htl⟩ := List.pairwise_cons.mp h
    by_cases hle : hd.createdAt ≤ g.createdAt
    · simp only [insertByCreatedAtDesc, if_pos hle]
      refine List.pairwise_cons.mpr ⟨?_, h⟩
      intro x hx
      rcases List.mem_cons.mp hx with he | hin
      · exact he ▸ hle
      · exact Nat.le_trans (hhd x hin) hle
    · simp only [insertByCreatedAtDesc, if_neg hle]
      refine List.pairwise_cons.mpr ⟨?_, ih htl⟩
      intro x hx
      have hge : g.createdAt ≤ hd.createdAt := Nat.le_of_not_le hle
      rcases mem_insertByCreatedAtDesc g x tl hx with he | hin
      · exact he ▸ hge
      · exact hhd x hin

theorem sorted_sortByCreatedAtDesc (l : List DeckGeneration) :
    List.Pairwise (fun a b => b.createdAt ≤ a.createdAt) (sortByCreatedAtDesc l) := by
  induction l with
  | nil => simp [sortByCreatedAtDesc]
  | cons g rest ih => exact sorted_insertByCreatedAtDesc g _ ih

/-- Stability of the insertion step: restricted to any fixed timestamp, it
either prepends the inserted element (when the timestamp is its own) or leaves
the restriction untouched — the strictly-newer elements it skips over never
carry that timestamp. -/
theorem filter_insertByCreatedAtDesc (g : DeckGeneration) (l : List DeckGeneration)
    (t : Nat) :
    (insertByCreatedAtDesc g l).filter (fun x => x.createdAt == t) =
      (if g.createdAt == t
        then g :: l.filter (fun x => x.createdAt == t)
        else l.filter (fun x => x.createdAt == t)) := by
  induction l with
  | nil =>
    cases hp : (g.createdAt == t) <;>
      simp [insertByCreatedAtDesc, List.filter_cons, hp]
  | cons hd tl ih =>
    by_cases hle : hd.createdAt ≤ g.createdAt
    · simp only [insertByCreatedAtDesc, if_pos hle]
      cases hp : (g.createdAt == t) <;> simp [List.filter_cons, hp]
    · simp only [insertByCreatedAtDesc, if_neg hle]
      cases hp : (hd.createdAt == t) with
      | true =>
        have hgt : (g.createdAt == t) = false := by
          refine beq_eq_false_iff_ne.mpr ?_
          intro he
          have hhd : hd.createdAt = t := beq_iff_eq.mp hp
          exact hle (by omega)
        simp [List.filter_cons, hp, ih, hgt]
      | false =>
        cases hq : (g.createdAt == t) <;> simp [List.filter_cons, hp, hq, ih]

/-- Stability of the sort: restricted to any fixed timestamp, the sorted list
equals the input list — elements with equal `createdAt` stay in their original
relative order, as a stable comparator sort leaves them. -/
theorem filter_sortByCreatedAtDesc (l : List DeckGeneration) (t : Nat) :
    (sortByCreatedAtDesc l).filter (fun x => x.createdAt == t) =
      l.filter (fun x => x.createdAt == t) := by
  induction l with
  | nil => rfl
  | cons g rest ih =>
    simp only [sortByCreatedAtDesc, filter_insertByCreatedAtDesc, ih]
    cases hp : (g.createdAt == t) <;> simp [List.filter_cons, hp]

theorem perm_insertByCreatedAtDesc (g : DeckGeneration) (l : List DeckGeneration) :
    List.Perm (insertByCreatedAtDesc g l) (g :: l) := by
  induction l with
  | nil => exact List.Perm.refl _
  | cons hd tl ih =>
    by_cases hle : hd.createdAt ≤ g.createdAt
    · simp only [insertByCreatedAtDesc, if_pos hle]
      exact List.Perm.refl _
    · simp only [insertByCreatedAtDesc, if_neg hle]
      exact (List.Perm.cons hd ih).trans (List.Perm.swap g hd tl)

/-- The sorted list is a permutation of the store's values. -/
theorem perm_sortByCreatedAtDesc (l : List DeckGeneration) :
    List.Perm (sortByCreatedAtDesc l) l := by
  induction l with
  | nil => exact List.Perm.refl _
  | cons g rest ih =>
    exact (perm_insertByCreatedAtDesc g _).trans (List.Perm.cons g ih)

/-- C8 (counterexample): two generations created within the same millisecond
carry equal `createdAt` timestamps; the comparator `timeOf(b) - timeOf(a)`
leaves them adjacent and equal, so the returned ordering is not *strictly*
descending. -/
theorem C8_counterexample :
    ¬ List.Pairwise (fun a b : DeckGeneration => b.createdAt < a.createdAt)
      (getRecentGenerations
        [("g1", ⟨"g1", "a@x.com", PeriodType.weekly, "2025-01-06", none,
            GenStatus.pending, 100⟩),
         ("g2", ⟨"g2", "a@x.com", PeriodType.weekly, "2025-01-06", none,
            GenStatus.pending, 100⟩)] 10) := by
  intro h
  have heval : getRecentGenerations
      [("g1", ⟨"g1", "a@x.com", PeriodType.weekly, "2025-01-06", none,
          GenStatus.pending, 100⟩),
       ("g2", ⟨"g2", "a@x.com", PeriodType.weekly, "2025-01-06", none,
          GenStatus.pending, 100⟩)] 10
      = [⟨"g1", "a@x.com", PeriodType.weekly, "2025-01-06", none,
            GenStatus.pending, 100⟩,
         ⟨"g2", "a@x.com", PeriodType.weekly, "2025-01-06", none,
            GenStatus.pending, 100⟩] := rfl
  rw [heval] at h
  have := (List.pairwise_cons.mp h).1 _ (List.mem_cons_self _ _)
  exact Nat.lt_irrefl 100 this

/-- C8 (amended): `getRecentGenerations n` returns at most `n` generations
ordered by non-increasing (descending) creation time — the underlying sort is
stable, so elements with equal `createdAt` stay in their original relative
order (stated below as: the sort restricted to any fixed timestamp is the
identity) and it permutes the store's values; the default limit is 10, and the
admin listing route, once the gate passes, answers with
`getRecentGenerations 20` of the untouched store. -/
theorem C8_recent_generations (store : List (String × DeckGeneration)) (n : Nat)
    (users : List (String × User)) (uid : String) (u : User)
    (hu : alistGet users uid = some u) (hadmin : u.role = Role.admin) :
    (getRecentGenerations store n).length ≤ n
    ∧ List.Pairwise (fun a b => b.createdAt ≤ a.createdAt) (getRecentGenerations store n)
    ∧ (∀ t : Nat, (sortByCreatedAtDesc (store.map (·.2))).filter
          (fun g => g.createdAt == t)
        = (store.map (·.2)).filter (fun g => g.createdAt == t))
    ∧ List.Perm (sortByCreatedAtDesc (store.map (·.2))) (store.map (·.2))
    ∧ getRecentGenerationsDefault store = getRecentGenerations store 10
    ∧ adminGenerationsRoute (some uid) users store
      = (store, Except.ok (getRecentGenerations store 20)) := by
  refine ⟨?_, ?_, fun t => filter_sortByCreatedAtDesc _ t,
    perm_sortByCreatedAtDesc _, rfl, ?_⟩
  · simp only [getRecentGenerations]
    exact List.length_take_le _ _
  · exact List.Pairwise.sublist (List.take_sublist _ _)
      (sorted_sortByCreatedAtDesc (store.map (·.2)))
  · simp [adminGenerationsRoute, runAdminGated, requireAdmin, hu, hadmin]

theorem C8_witness :
    (getRecentGenerations
      [("g1", ⟨"g1", "a@x.com", PeriodType.weekly, "2025-01-06", none,
          GenStatus.pending, 100⟩)] 3).length ≤ 3 :=
  (C8_recent_generations
    [("g1", ⟨"g1", "a@x.com", PeriodType.weekly, "2025-01-06", none,
        GenStatus.pending, 100⟩)] 3
    [("a1", ⟨"a1", "admin@x.com", "h", "Admin", Role.admin, [], "t0"⟩)]
    "a1" ⟨"a1", "admin@x.com", "h", "Admin", Role.admin, [], "t0"⟩
    (by decide) rfl).1

/-! ## Deck generation state machine (claim C9) -/

theorem keys_subset_alistSet {α : Type} (l : List (String × α)) (k0 : String) (v : α)
    (k : String) (h : k ∈ l.map (·.1)) : k ∈ (alistSet l k0 v).map (·.1) := by
  cases hmem : alistGet l k0 with
  | none =>
    rw [alistSet_of_not_mem _ _ _ hmem]
    simp only [List.map_append, List.mem_append]
    exact Or.inl h
  | some w => rw [alistSet_keys_of_mem _ _ _ _ hmem]; exact h

theorem GenInv_genStep (st : List (String × DeckGeneration)) (op : GenOp)
    (h : GenInv st) : GenInv (genStep st op) := by
  cases op with
  | generate gb pt ps fid now =>
    intro pr hpr
    simp only [genStep, createDeckGeneration] at hpr
    rcases mem_alistSet _ _ _ pr hpr with he | hin
    · subst he
      exact ⟨rfl, Or.inl ⟨rfl, rfl⟩⟩
    · exact h pr hin
  | complete id =>
    cases hg : alistGet st id with
    | none =>
      have hstep : genStep st (GenOp.complete id) = st := by
        simp [genStep, updateDeckGeneration, hg]
      rw [hstep]
      exact h
    | some g =>
      have hstep : genStep st (GenOp.complete id) =
          alistSet st id (applyGenPatch g (completionPatch id)) := by
        simp [genStep, updateDeckGeneration, hg]
      rw [hstep]
      intro pr hpr
      rcases mem_alistSet _ _ _ pr hpr with he | hin
      · subst he
        have hgid : g.id = id := (h (id, g) (alistGet_mem st id g hg)).1
        refine ⟨by simp [applyGenPatch, completionPatch, hgid], Or.inr ⟨?_, ?_⟩⟩
        · simp [applyGenPatch, completionPatch]
        · simp [applyGenPatch, completionPatch, hgid]
      · exact h pr hin

theorem keys_genStep (st : List (String × DeckGeneration)) (op : GenOp)
    (k : String) (h : k ∈ st.map (·.1)) : k ∈ (genStep st op).map (·.1) := by
  cases op with
  | generate gb pt ps fid now => exact keys_subset_alistSet st fid _ k h
  | complete id =>
    cases hg : alistGet st id with
    | none =>
      have hstep : genStep st (GenOp.complete id) = st := by
        simp [genStep, updateDeckGeneration, hg]
      rw [hstep]
      exact h
    | some g =>
      have hstep : genStep st (GenOp.complete id) =
          alistSet st id (applyGenPatch g (completionPatch id)) := by
        simp [genStep, updateDeckGeneration, hg]
      rw [hstep]
      exact keys_subset_alistSet st id _ k h

theorem GenInv_applyGenOps (ops : List GenOp) :
    ∀ st, GenInv st → GenInv (applyGenOps st ops) := by
  induction ops with
  | nil => intro st h; exact h
  | cons op rest ih => intro st h; exact ih _ (GenInv_genStep st op h)

theorem keys_applyGenOps (ops : List GenOp) :
    ∀ st k, k ∈ st.map (·.1) → k ∈ (applyGenOps st ops).map (·.1) := by
  induction ops with
  | nil => intro st k h; exact h
  | cons op rest ih => intro st k h; exact ih _ k (keys_genStep st op k h)

/-- C9: over any sequence of reference-flow operations (handler creations and
delayed completions) from a store satisfying the flow invariant, every
generation is either `pending` with no slides URL or `completed` with the URL
derived from its id — `in_progress` and `failed` are never reached and a
completed record's URL is never anything else; no record is ever deleted (every
key of the starting store is still a key afterwards); and the record the
generate handler creates starts as `pending` with `slidesUrl` null. -/
theorem C9_generation_lifecycle (st : List (String × DeckGeneration))
    (ops : List GenOp) (hinv : GenInv st) :
    GenInv (applyGenOps st ops)
    ∧ (∀ g ∈ (applyGenOps st ops).map (·.2),
        (g.status = GenStatus.pending ∧ g.slidesUrl = none) ∨
        (g.status = GenStatus.completed ∧ g.slidesUrl = some (slidesUrlFor g.id)))
    ∧ (∀ k ∈ st.map (·.1), k ∈ (applyGenOps st ops).map (·.1))
    ∧ (∀ gb pt ps fid now,
        (createDeckGeneration st (generateDraft gb pt ps) fid now).1.status
            = GenStatus.pending
        ∧ (createDeckGeneration st (generateDraft gb pt ps) fid now).1.slidesUrl
            = none) := by
  have hres := GenInv_applyGenOps ops st hinv
  refine ⟨hres, ?_, fun k hk => keys_applyGenOps ops st k hk,
    fun gb pt ps fid now => ⟨rfl, rfl⟩⟩
  intro g hg
  rcases List.mem_map.mp hg with ⟨pr, hpr, hpr2⟩
  exact hpr2 ▸ (hres pr hpr).2

theorem C9_witness :
    (createDeckGeneration [] (generateDraft "a@x.com" PeriodType.weekly "2025-01-06")
      "g1" 100).1.status = GenStatus.pending :=
  ((C9_generation_lifecycle []
    [GenOp.generate "a@x.com" PeriodType.weekly "2025-01-06" "g1" 100,
     GenOp.complete "g1"]
    (by intro pr hpr; simp at hpr)).2.2.2
    "a@x.com" PeriodType.weekly "2025-01-06" "g1" 100).1

/-! ## Base64 hashing is injective (claim C10) -/

theorem b64inv_b64char : ∀ n < 64, b64inv (b64char n) = n := by decide

theorem b64char_ne_pad : ∀ n < 64, b64char n ≠ '=' := by decide

theorem b64_roundtrip : ∀ (l : List Nat), (∀ b ∈ l, b < 256) →
    b64decode (b64encode l) = l
  | [] => fun _ => rfl
  | [a] => fun h => by
    have ha : a < 256 := h a (by simp)
    simp only [b64encode, b64decode, if_true]
    rw [b64inv_b64char (a / 4) (by omega), b64inv_b64char (a % 4 * 16) (by omega)]
    have he : a / 4 * 4 + a % 4 * 16 / 16 = a := by omega
    rw [he]
  | [a, b] => fun h => by
    have ha : a < 256 := h a (by simp)
    have hb : b < 256 := h b (by simp)
    simp only [b64encode, b64decode]
    rw [if_neg (b64char_ne_pad (b % 16 * 4) (by omega))]
    simp only [if_true]
    rw [b64inv_b64char (a / 4) (by omega),
      b64inv_b64char (a % 4 * 16 + b / 16) (by omega),
      b64inv_b64char (b % 16 * 4) (by omega)]
    have he1 : a / 4 * 4 + (a % 4 * 16 + b / 16) / 16 = a := by omega
    have he2 : (a % 4 * 16 + b / 16) % 16 * 16 + b % 16 * 4 / 4 = b := by omega
    rw [he1, he2]
  | a :: b :: c :: rest => fun h => by
    have ha : a < 256 := h a (by simp)
    have hb : b < 256 := h b (by simp)
    have hc : c < 256 := h c (by simp)
    have hrest : ∀ x ∈ rest, x < 256 := fun x hx =>
      h x (by simp [List.mem_cons]; tauto)
    have ih := b64_roundtrip rest hrest
    simp only [b64encode, b64decode]
    rw [if_neg (b64char_ne_pad (b % 16 * 4 + c / 64) (by omega)),
      if_neg (b64char_ne_pad (c % 64) (by omega))]
    rw [b64inv_b64char (a / 4) (by omega),
      b64inv_b64char (a % 4 * 16 + b / 16) (by omega),
      b64inv_b64char (b % 16 * 4 + c / 64) (by omega),
      b64inv_b64char (c % 64) (by omega)]
    have he1 : a / 4 * 4 + (a % 4 * 16 + b / 16) / 16 = a := by omega
    have he2 : (a % 4 * 16 + b / 16) % 16 * 16 + (b % 16 * 4 + c / 64) / 4 = b := by
      omega
    have he3 : (b % 16 * 4 + c / 64) % 4 * 64 + c % 64 = c := by omega
    rw [he1, he2, he3, ih]

theorem hashPassword_injective (p p' : List Nat) (hp : ∀ b ∈ p, b < 256)
    (hp' : ∀ b ∈ p', b < 256) (h : hashPassword p = hashPassword p') : p = p' := by
  have hdata : b64encode p = b64encode p' := congrArg String.data h
  calc p = b64decode (b64encode p) := (b64_roundtrip p hp).symm
    _ = b64decode (b64encode p') := by rw [hdata]
    _ = p' := b64_roundtrip p' hp'

theorem mem_values_alistSet {α : Type} (l : List (String × α)) (k : String) (v : α)
    (y : α) (h : y ∈ (alistSet l k v).map (·.2)) : y = v ∨ y ∈ l.map (·.2) := by
  rcases List.mem_map.mp h with ⟨pr, hpr, he⟩
  rcases mem_alistSet l k v pr hpr with h1 | h1
  · left; rw [← he, h1]
  · right; exact he ▸ List.mem_map_of_mem _ h1

theorem find?_eq_of_unique {γ : Type} (l : List γ) (p : γ → Bool) (x : γ)
    (hmem : x ∈ l) (hx : p x = true) (hothers : ∀ y ∈ l, p y = true → y = x) :
    l.find? p = some x := by
  induction l with
  | nil => simp at hmem
  | cons hd tl ih =>
    cases hcond : p hd with
    | true =>
      rw [List.find?_cons_of_pos _ hcond]
      rw [hothers hd (List.mem_cons_self _ _) hcond]
    | false =>
      rw [List.find?_cons_of_neg _ (by simp [hcond])]
      have hxtl : x ∈ tl := by
        rcases List.mem_cons.mp hmem with he | hin
        · rw [← he] at hcond; rw [hx] at hcond; exact absurd hcond (by simp)
        · exact hin
      exact ih hxtl (fun y hy hp2 => hothers y (List.mem_cons_of_mem _ hy) hp2)

/-- After a registration that succeeded for `email`, looking that email up
finds exactly the newly created user. -/
theorem getUserByEmail_after_register (users : List (String × User)) (email : String)
    (pw : List Nat) (nm fid now : String)
    (hsucc : getUserByEmail users email = none) :
    getUserByEmail (registerHandler users email pw nm fid now).1 email
      = some ⟨fid, email, hashPassword pw, nm, Role.operator, [], now⟩ := by
  rw [registerHandler_success users email pw nm fid now hsucc]
  unfold getUserByEmail at hsucc ⊢
  refine find?_eq_of_unique _ _ _ (alistSet_value_mem users fid _) (by simp) ?_
  intro y hy hp2
  rcases mem_values_alistSet users fid _ y hy with he | hin
  · exact he
  · exact absurd hp2 (by simpa using List.find?_eq_none.mp hsucc y hin)

/-- C10: password verification is the exact inverse of password hashing on
UTF-8 byte sequences — `verifyPassword p (hashPassword p)` always holds and
`verifyPassword p' (hashPassword p)` fails whenever `p' ≠ p` (base64 encoding
is injective); consequently, after a successful registration, logging in with
the same email and password returns the stored user, and logging in with any
other password answers 401 "Invalid email or password". -/
theorem C10_password_verification_inverse (p p' : List Nat)
    (users : List (String × User)) (email nm fid now : String)
    (hp : ∀ b ∈ p, b < 256) (hp' : ∀ b ∈ p', b < 256) (hne : p' ≠ p)
    (hsucc : getUserByEmail users email = none) :
    verifyPassword p (hashPassword p) = true
    ∧ verifyPassword p' (hashPassword p) = false
    ∧ loginHandler (registerHandler users email p nm fid now).1 email p
      = Except.ok ⟨fid, email, hashPassword p, nm, Role.operator, [], now⟩
    ∧ loginHandler (registerHandler users email p nm fid now).1 email p'
      = Except.error ⟨401, "Invalid email or password"⟩ := by
  have hver : verifyPassword p (hashPassword p) = true := by
    simp [verifyPassword]
  have hver' : verifyPassword p' (hashPassword p) = false := by
    rw [verifyPassword]
    refine beq_eq_false_iff_ne.mpr ?_
    intro he
    exact hne (hashPassword_injective p' p hp' hp he)
  have hget := getUserByEmail_after_register users email p nm fid now hsucc
  refine ⟨hver, hver', ?_, ?_⟩
  · simp only [loginHandler, hget, hver, if_pos]
  · simp only [loginHandler, hget, hver']
    rw [if_neg (by simp [hver'])]

theorem C10_witness :
    verifyPassword [97, 98, 99] (hashPassword [97, 98, 99]) = true :=
  (C10_password_verification_inverse [97, 98, 99] [120] [] "a@x.com" "Al" "u1" "t1"
    (by decide) (by decide) (by decide) rfl).1

end MoxyStore
